import Mathlib

/-!
Shallow embedding of selected components of the puppetcpp compiler
(a compiler front-end and evaluator for the Puppet configuration language)
together with proofs checking the natural-language specification against it.

Embedded components:
* the runtime value model (`src/lib/src/runtime/values/value.cc`);
* the `dereference` operation on values;
* the arithmetic operators `divide` and `left_shift`
  (`src/lib/src/runtime/operators/divide.cc`, `left_shift.cc`);
* the `less_equal` comparison operator (`less_equal.cc`);
* the `split` and `filter` built-in functions (`split.cc`, `filter.cc`);
* the logger counters and the process exit status
  (`src/lib/src/logging/logger.cc`, `src/exe/main.cc`);
* the definition scanner's name validation and class registration
  (`src/lib/src/runtime/definition_scanner.cc`);
* the shape of syntax trees produced by the grammar
  (`src/lib/include/puppet/compiler/grammar.hpp`).

Machine integers (`int64_t`) are modelled as `Int` with explicit reduction
modulo `2 ^ 64` where the compiled code wraps.  `long double` values are
modelled by `LD` below: NaN, signed infinities, and finite values as exact
rationals; the IEEE-754 exception flags consulted through `<cfenv>` are
modelled per the C standard (Annex F), with an unbounded exponent range so
that `FE_OVERFLOW`/`FE_UNDERFLOW` never fire (no claim under study depends
on them).  Fallible code returns `Except String`, carrying the exception
message built by the source.
-/

namespace Puppet

/-! ## The value model

`values::value` is a `boost::variant` over undef, default, bool, `int64_t`,
`long double`, string, regex, type, `variable`, array and hash
(`value.hpp`).  A `variable` holds the variable's name and a reference to
the assigned value, which may itself be a `variable`.
-/

/-- Model of `long double`: NaN, infinities with a sign, and finite values
as exact rationals (signed zero and exponent-range limits are not
modelled; see the module comment). -/
inductive LD where
  | nan : LD
  | inf (neg : Bool) : LD
  | finite (q : ℚ) : LD
deriving DecidableEq, Repr

/-- Model of the runtime type algebra `values::type`.  The concrete type
classes live in headers outside `src/`; only the constructors needed by
the claims are modelled, each identified by its name and parameters. -/
inductive PType where
  | any | undef | defaulted | boolean | integer | floating | strType
  | regexp | numeric | scalar | data | collection
  | arrayType | hashType | typeType
  | klass (title : String)
  | resourceType (typeName : String) (title : String)
deriving DecidableEq, Repr

mutual
/-- Model of `values::value`: the tagged union of runtime values.
A `variableVal` carries the variable name and the referenced value. -/
inductive Value where
  | undef : Value
  | defaulted : Value
  | boolean (b : Bool) : Value
  | integer (i : Int) : Value
  | floating (x : LD) : Value
  | str (s : String) : Value
  | regex (pattern : String) : Value
  | type (t : PType) : Value
  | variableVal (name : String) (referenced : Value) : Value
  | array (elements : ValueList) : Value
  | hash (pairs : ValuePairList) : Value
deriving DecidableEq, Repr

/-- Lists of values (elements of a `values::array`). -/
inductive ValueList where
  | nil : ValueList
  | cons (head : Value) (tail : ValueList) : ValueList
deriving DecidableEq, Repr

/-- Lists of key/value pairs (entries of a `values::hash`). -/
inductive ValuePairList where
  | nil : ValuePairList
  | cons (key : Value) (val : Value) (tail : ValuePairList) : ValuePairList
deriving DecidableEq, Repr
end

/-- Append on modelled value lists (used by `<<` on arrays). -/
def ValueList.append : ValueList → ValueList → ValueList
  | .nil, ys => ys
  | .cons x xs, ys => .cons x (xs.append ys)

/-- Conversion from a Lean list, for stating concrete examples. -/
def ValueList.ofList : List Value → ValueList
  | [] => .nil
  | v :: rest => .cons v (ofList rest)

/-- Conversion to a Lean list. -/
def ValueList.toList : ValueList → List Value
  | .nil => []
  | .cons v rest => v :: rest.toList

/-- `dereference` from `value.cc`: follows the chain of `variable` values
until a non-variable value is reached and returns it.

```
value const& dereference(value const& val)
{
    auto result = &val;
    auto ptr = boost::get<variable>(result);
    while (ptr) {
        result = &ptr->value();
        ptr = boost::get<variable>(result);
    }
    return *result;
}
``` -/
def dereference : Value → Value
  | .variableVal _ referenced => dereference referenced
  | v => v

/-- Whether a value is the `variable` alternative of the union. -/
def Value.isVariable : Value → Bool
  | .variableVal _ _ => true
  | _ => false

/-- `mutate` from `value.cc`: dereferences a variable value, otherwise
moves the value unchanged.  Observationally it returns `dereference` of a
variable and the value itself otherwise. -/
def mutate (v : Value) : Value :=
  if v.isVariable then dereference v else v

/-- `is_true` from `value.cc`: true exactly for the boolean value `true`
(no dereferencing, no truthiness coercion). -/
def is_true : Value → Bool
  | .boolean b => b
  | _ => false

/-! ## Logging and exit status

`logging::level` is an enumeration ordered
debug < info < notice < warning < error < alert < emergency < critical
(`logger.cc`, `operator<<`).  The logger counts warnings and errors;
`main` (in `main.cc`) returns `EXIT_FAILURE` when any errors were counted,
with the exception paths modelled below. -/

/-- Model of `logging::level`. -/
inductive Level where
  | debug | info | notice | warning | error | alert | emergency | critical
deriving DecidableEq, Repr

/-- The numeric value of a level (its position in the enumeration). -/
def Level.toNat : Level → Nat
  | .debug => 0
  | .info => 1
  | .notice => 2
  | .warning => 3
  | .error => 4
  | .alert => 5
  | .emergency => 6
  | .critical => 7

/-- Model of the logger's counting state: warning count, error count, and
the configured minimum level (`logger::logger()` starts at `notice` with
zero counts). -/
structure Logger where
  warnings : Nat
  errors : Nat
  level : Level
deriving DecidableEq, Repr

/-- The freshly constructed logger. -/
def Logger.init : Logger := ⟨0, 0, .notice⟩

/-- `logger::would_log`: a record is emitted iff its level is at or above
the configured level. -/
def Logger.would_log (lg : Logger) (lvl : Level) : Bool :=
  lg.level.toNat ≤ lvl.toNat

/-- The counting effect of `logger::log` (`logger.cc` lines 90-101): a
filtered-out record changes nothing; an emitted record increments the
warning counter at level `warning` and the error counter at levels
`error` and above. -/
def Logger.log (lg : Logger) (lvl : Level) : Logger :=
  if lg.would_log lvl then
    if lvl = .warning then
      { lg with warnings := lg.warnings + 1 }
    else if Level.error.toNat ≤ lvl.toNat then
      { lg with errors := lg.errors + 1 }
    else lg
  else lg

/-- Configuration abstracting the inputs that drive `main`'s control flow:
whether the `settings` constructor throws a `settings_exception`, the
`--version`/`--help` flags, the configured log level, whether the manifest
list is empty (which throws a `settings_exception` after the log level is
configured), and the outcome of `node::compile`. -/
structure MainConfig where
  settingsCtorFails : Bool
  showVersion : Bool
  showHelp : Bool
  logLevel : Level
  manifestsEmpty : Bool
  compileOutcome : Option Level
deriving DecidableEq, Repr

/-- Model of `main` (`main.cc`): runs the control flow, threading the
logger, and returns the exit status together with the final logger state.
`compileOutcome = none` models a successful compile; `some lvl` models an
exception caught around the compile call and logged at `lvl` (`error` for
`compilation_exception` and `yaml_parse_exception`, `critical` for an
unhandled exception).  A `settings_exception` logs an error and a notice
and returns `EXIT_FAILURE` directly. -/
def runMain (cfg : MainConfig) : Nat × Logger :=
  let lg : Logger := Logger.init
  if cfg.settingsCtorFails then
    -- catch (settings_exception): LOG(error), LOG(notice), return EXIT_FAILURE
    let lg := (lg.log .error).log .notice
    (1, lg)
  else if cfg.showVersion then
    (0, lg)
  else if cfg.showHelp then
    (0, lg)
  else
    -- logger.level(settings.log_level()); debug logs count nothing
    let lg : Logger := { lg with level := cfg.logLevel }
    let lg := (lg.log .debug).log .debug
    if cfg.manifestsEmpty then
      -- throw settings_exception; caught: LOG(error), LOG(notice), EXIT_FAILURE
      let lg := (lg.log .error).log .notice
      (1, lg)
    else
      -- LOG(notice, "compiling for node ...")
      let lg := lg.log .notice
      let lg :=
        match cfg.compileOutcome with
        | none => lg
        | some lvl => lg.log lvl
      -- LOG(notice, "compilation ... with ... errors and ... warnings.")
      let lg := lg.log .notice
      (if lg.errors > 0 then 1 else 0, lg)

/-! ## Operators

The binary operators dispatch a `boost::static_visitor` over the pair of
operand alternatives; unmatched pairs throw an evaluation exception whose
message names the expected and found types.  Exceptions are modelled as
`Except String` carrying the message. -/

/-- The name of a value's runtime type, as produced by streaming
`get_type(value)` into the error message (`type_visitor` in `value.cc`;
the `name()` strings of the type classes follow the spec's type algebra). -/
def typeName : Value → String
  | .undef => "Undef"
  | .defaulted => "Default"
  | .boolean _ => "Boolean"
  | .integer _ => "Integer"
  | .floating _ => "Float"
  | .str _ => "String"
  | .regex _ => "Regexp"
  | .type _ => "Type"
  | .variableVal _ referenced => typeName referenced
  | .array _ => "Array[Any]"
  | .hash _ => "Hash[Any, Any]"

/-- `divide_visitor::operator()(int64_t, int64_t)` (`divide.cc` lines
20-30): error on a zero divisor, error on `INT64_MIN / -1`, otherwise the
C++ quotient, which truncates toward zero (`Int.tdiv`). -/
def divideInts (l r : Int) : Except String Value :=
  if r = 0 then
    .error "cannot divide by zero."
  else if l = -(2 ^ 63) && r = -1 then
    .error ("division of " ++ toString l ++ " by " ++ toString r ++
      " results in an arithmetic overflow.")
  else
    .ok (.integer (l.tdiv r))

/-- The result of a `long double` division together with the IEEE-754
exception flags consulted by the source through `<cfenv>`.  Modelled per
IEEE 754 / C Annex F: `FE_DIVBYZERO` is raised exactly when a finite
nonzero dividend is divided by zero; `0/0` and `inf/inf` are invalid
operations yielding NaN without raising `FE_DIVBYZERO`.  With the
unbounded exponent range of the `LD` model, `FE_OVERFLOW` and
`FE_UNDERFLOW` are never raised. -/
structure FloatDiv where
  result : LD
  divByZero : Bool
  overflow : Bool
  underflow : Bool

/-- IEEE-754 division on the `LD` model, with flags. -/
def ldDiv : LD → LD → FloatDiv
  | .nan, _ => ⟨.nan, false, false, false⟩
  | _, .nan => ⟨.nan, false, false, false⟩
  | .inf _, .inf _ => ⟨.nan, false, false, false⟩
  | .inf s, .finite q => ⟨.inf (xor s (decide (q < 0))), false, false, false⟩
  | .finite _, .inf _ => ⟨.finite 0, false, false, false⟩
  | .finite a, .finite b =>
    if b = 0 then
      if a = 0 then ⟨.nan, false, false, false⟩
      else ⟨.inf (decide (a < 0)), true, false, false⟩
    else ⟨.finite (a / b), false, false, false⟩

/-- `divide_visitor::operator()(long double, long double)` (`divide.cc`
lines 42-55): clears the flags, divides, then reports errors for
`FE_DIVBYZERO`, `FE_OVERFLOW` and `FE_UNDERFLOW` in that order. -/
def divideFloats (l r : LD) : Except String Value :=
  let d := ldDiv l r
  if d.divByZero then
    .error "cannot divide by zero."
  else if d.overflow then
    .error "arithmetic overflow."
  else if d.underflow then
    .error "arithmetic underflow."
  else
    .ok (.floating d.result)

/-- The `divide_visitor` dispatch (`divide.cc`): integers and floats
interoperate (the `int64_t` cast to `long double` is exact in the `LD`
model); any other operand raises a type error. -/
def divideVisitor : Value → Value → Except String Value
  | .integer l, .integer r => divideInts l r
  | .integer l, .floating r => divideFloats (.finite (l : ℚ)) r
  | .floating l, .integer r => divideFloats l (.finite (r : ℚ))
  | .floating l, .floating r => divideFloats l r
  | .integer _, right =>
    .error ("expected Numeric for arithmetic division but found " ++ typeName right ++ ".")
  | .floating _, right =>
    .error ("expected Numeric for arithmetic division but found " ++ typeName right ++ ".")
  | left, _ =>
    .error ("expected Numeric for arithmetic division but found " ++ typeName left ++ ".")

/-- `divide::operator()` (`divide.cc` lines 87-91): dereferences both
operands, then applies the visitor. -/
def divide (l r : Value) : Except String Value :=
  divideVisitor (dereference l) (dereference r)

/-! ### Bitwise left shift

`left_shift_visitor::operator()(int64_t, int64_t)` computes the shift with
plain C++ shifts and negations and performs no overflow detection.  Signed
overflow and shifts past the width are undefined behaviour in C++; the
model reproduces what the compiled code does on the x86-64 target:
two's-complement wraparound and shift counts taken modulo 64. -/

/-- Reduce an integer into the `int64_t` range by two's-complement
wraparound. -/
def wrap64 (n : Int) : Int := (n + 2 ^ 63) % 2 ^ 64 - 2 ^ 63

/-- `int64_t` negation (wraps at `INT64_MIN`). -/
def neg64 (n : Int) : Int := wrap64 (-n)

/-- `int64_t` left shift: multiply by a power of two, count modulo 64,
wrapped. -/
def shl64 (l k : Int) : Int := wrap64 (l * 2 ^ (k % 64).toNat)

/-- `int64_t` arithmetic right shift: floor division by a power of two,
count modulo 64. -/
def ashr64 (l k : Int) : Int := Int.fdiv l (2 ^ (k % 64).toNat)

/-- `left_shift_visitor::operator()(int64_t, int64_t)` (`left_shift.cc`
lines 19-33):

```
if (right < 0 && left < 0) { return -(-left >> -right); }
if (right < 0) { return left >> -right; }
if (left < 0) { return -(-left << right); }
return left << right;
```

No branch throws: the function always returns a (possibly wrapped)
integer. -/
def leftShiftInts (l r : Int) : Int :=
  if r < 0 then
    if l < 0 then neg64 (ashr64 (neg64 l) (neg64 r))
    else ashr64 l (neg64 r)
  else if l < 0 then
    neg64 (shl64 (neg64 l) r)
  else
    shl64 l r

/-- The `left_shift_visitor` dispatch (`left_shift.cc`): integer shift,
array append (`<<` on an array pushes the right operand), and type errors
otherwise. -/
def leftShiftVisitor : Value → Value → Except String Value
  | .integer l, .integer r => .ok (.integer (leftShiftInts l r))
  | .array elements, right => .ok (.array (elements.append (.cons right .nil)))
  | .integer _, right =>
    .error ("expected Integer for bitwise left shift but found " ++ typeName right ++ ".")
  | left, _ =>
    .error ("expected Integer for bitwise left shift but found " ++ typeName left ++ ".")

/-- `left_shift::operator()` (`left_shift.cc` lines 61-69): prepares both
operands with `mutate` (which dereferences variables), then applies the
visitor. -/
def left_shift (l r : Value) : Except String Value :=
  leftShiftVisitor (mutate l) (mutate r)

/-! ### Less-or-equal comparison -/

/-- `std::toupper` in the default locale: maps `a`-`z` to `A`-`Z` and
leaves every other character unchanged.  This is the character fold used
by `boost::is_iless` and `boost::is_iequal`. -/
def toUpperCh (c : Char) : Char :=
  if c.isLower then Char.ofNat (c.toNat - 32) else c

/-- `boost::ilexicographical_compare` (`less_equal.cc` line 42):
`std::lexicographical_compare` with the case-insensitive character
comparison `toupper(a) < toupper(b)`. -/
def ilexicographicalCompare : List Char → List Char → Bool
  | _, [] => false
  | [], _ :: _ => true
  | a :: xs, b :: ys =>
    if (toUpperCh a).toNat < (toUpperCh b).toNat then true
    else if (toUpperCh b).toNat < (toUpperCh a).toNat then false
    else ilexicographicalCompare xs ys

/-- `boost::iequals`: equal lengths and pointwise equal characters under
`toupper`. -/
def iequalsChars : List Char → List Char → Bool
  | [], [] => true
  | a :: xs, b :: ys => toUpperCh a = toUpperCh b && iequalsChars xs ys
  | _, _ => false

/-- `less_equal_visitor::operator()(string const&, string const&)`
(`less_equal.cc` lines 39-43):
`ilexicographical_compare(left, right) || iequals(left, right)`. -/
def lessEqualStrings (l r : List Char) : Bool :=
  ilexicographicalCompare l r || iequalsChars l r

/-- Comparison on the `LD` float model (`left <= right`; false whenever a
NaN is involved). -/
def LD.le : LD → LD → Bool
  | .nan, _ => false
  | _, .nan => false
  | .inf true, _ => true
  | .inf false, .inf false => true
  | .inf false, _ => false
  | .finite _, .inf s => !s
  | .finite a, .finite b => a ≤ b

/-- The `less_equal_visitor` dispatch (`less_equal.cc`).  The subtype
relation `is_specialization` lives in type-class headers outside `src/`
and is passed as a parameter: `isSpec a b` states that `a` is a
specialization of `b`.  The type case is
`left == right || is_specialization(right, left)`. -/
def lessEqualVisitor (isSpec : PType → PType → Bool) : Value → Value → Except String Value
  | .integer l, .integer r => .ok (.boolean (l ≤ r))
  | .integer l, .floating r => .ok (.boolean (LD.le (.finite (l : ℚ)) r))
  | .floating l, .integer r => .ok (.boolean (LD.le l (.finite (r : ℚ))))
  | .floating l, .floating r => .ok (.boolean (LD.le l r))
  | .str l, .str r => .ok (.boolean (lessEqualStrings l.toList r.toList))
  | .type l, .type r => .ok (.boolean (decide (l = r) || isSpec r l))
  | .integer _, right =>
    .error ("expected Numeric for comparison but found " ++ typeName right ++ ".")
  | .floating _, right =>
    .error ("expected Numeric for comparison but found " ++ typeName right ++ ".")
  | .str _, right =>
    .error ("expected String for comparison but found " ++ typeName right ++ ".")
  | .type _, right =>
    .error ("expected Type for comparison but found " ++ typeName right ++ ".")
  | left, _ =>
    .error ("expected Numeric, String, or Type for comparison but found " ++ typeName left ++ ".")

/-- `less_equal::operator()` (`less_equal.cc` lines 98-102): dereferences
both operands, then applies the visitor. -/
def less_equal (isSpec : PType → PType → Bool) (l r : Value) : Except String Value :=
  lessEqualVisitor isSpec (dereference l) (dereference r)

/-- A sample subtype relation on the modelled type algebra, following the
spec's type lattice (`Integer`/`Float` below `Numeric`, `Numeric` and
`String` below `Scalar`, everything below `Any`).  Used only to
instantiate theorems at concrete inputs. -/
def sampleIsSpec : PType → PType → Bool
  | _, .any => true
  | .integer, .numeric => true
  | .floating, .numeric => true
  | .integer, .scalar => true
  | .floating, .scalar => true
  | .strType, .scalar => true
  | .boolean, .scalar => true
  | .numeric, .scalar => true
  | _, _ => false

/-! ## The `split` function

`split_visitor::operator()(string const&, string const&)` (`split.cc`
lines 17-31).  `boost::make_split_iterator` with a `first_finder`
enumerates the ranges between successive occurrences of the delimiter
(including empty ranges); the loop body skips a range when it is empty
(`if (!*it) continue;`). -/

/-- Index of the first occurrence of `sep` in `s` (the behaviour of
`boost::first_finder`). -/
def findSub (sep : List Char) : List Char → Option Nat
  | [] => if sep.isPrefixOf [] then some 0 else none
  | c :: rest =>
    if sep.isPrefixOf (c :: rest) then some 0
    else (findSub sep rest).map (· + 1)

/-- Successive ranges between occurrences of `sep`, fuelled by the length
of the subject (each step past a non-empty separator strictly shortens the
subject, so `s.length` steps suffice; the fuel-exhausted branch is
unreachable for a non-empty separator). -/
def splitRangesAux (sep : List Char) : Nat → List Char → List (List Char)
  | 0, s => [s]
  | fuel + 1, s =>
    match findSub sep s with
    | none => [s]
    | some i => s.take i :: splitRangesAux sep fuel (s.drop (i + sep.length))

/-- All ranges produced by the split iterator for delimiter `sep` over
`s`. -/
def splitRanges (sep s : List Char) : List (List Char) :=
  splitRangesAux sep s.length s

/-- `split_visitor::split_empty` (`split.cc` lines 80-88): one
single-character string per character. -/
def splitEmpty (s : String) : List String :=
  s.toList.map (fun c => String.mk [c])

/-- `split_visitor::operator()(string const&, string const&)`: for an
empty delimiter, split into characters; otherwise collect the non-empty
ranges between delimiter occurrences (`if (!*it) continue;` drops the
empty ranges). -/
def split_string (first second : String) : List String :=
  if second = "" then splitEmpty first
  else
    ((splitRanges second.toList first.toList).filter (fun r => !r.isEmpty)).map
      (fun r => String.mk r)

/-- The split result as a runtime value (an array of strings). -/
def splitValue (first second : String) : Value :=
  .array (ValueList.ofList ((split_string first second).map .str))

/-! ## The `filter` function

`filter_visitor::operator()(values::array&)` (`filter.cc` lines 49-68).
`yield` models `call_context::yield`, which invokes the lambda on the
argument vector built by the loop; `paramCount` is
`lambda_parameter_count()`. -/

/-- The loop of the array case: for each element (tracking its index),
yield either `[element]` (one lambda parameter) or `[index, element]`
(two parameters), and keep the element when the yielded value is the
boolean `true`. -/
def filterArrayAux (paramCount : Nat) (yield : List Value → Value) :
    List Value → Nat → List Value
  | [], _ => []
  | v :: rest, i =>
    let args := if paramCount = 1 then [v] else [.integer (Int.ofNat i), v]
    if is_true (yield args) then v :: filterArrayAux paramCount yield rest (i + 1)
    else filterArrayAux paramCount yield rest (i + 1)

/-- `filter_visitor::operator()(values::array&)`: run the loop from index
zero. -/
def filterArray (paramCount : Nat) (yield : List Value → Value)
    (elements : List Value) : List Value :=
  filterArrayAux paramCount yield elements 0

/-! ## The definition scanner

`definition_scanner.cc`: a pre-pass over the AST that registers every
class, defined-type and node definition in the catalog, validating names,
parents and parameters.  The registration logic is embedded below; the
traversal is modelled as the sequence of registration events it produces
(each carrying the scanner's class-scope stack at that point, a deque
whose front is the top-level marker `"::"` and whose back is the current
scope name, empty for non-class contexts). -/

/-- Structured scan errors, one constructor per `throw` site of the
registration paths. -/
inductive ScanError where
  | notTopLevel (isClass : Bool)
  | emptyName (isClass : Bool)
  | invalidName (name : String) (isClass : Bool)
  | reservedName (qualified : String)
  | definedTypeConflict (qualified : String)
  | classConflict (qualified : String)
  | parentConflict (klassTitle : String) (newParent : String) (existingParent : String)
  | reservedParameter (name : String)
  | capturesParameter (isClass : Bool) (name : String)
  | metaparameterName (name : String)
deriving DecidableEq, Repr

/-- A registered class definition: the catalog records, per class, the
list of its definitions; each carries its optional `inherits` parent
(`types::klass` is identified with its title string; the class itself is
the registry key). -/
structure ClassDefinition where
  parent : Option String
deriving DecidableEq, Repr

/-- The catalog state the scanner mutates: the class-definition registry
(qualified name → definitions in registration order; an empty list means
the class is not registered, since `define_class` always appends a
definition) and the defined-type registry (a set of qualified names). -/
structure ScannerState where
  classes : String → List ClassDefinition
  definedTypes : String → Bool

/-- The empty catalog. -/
def ScannerState.empty : ScannerState := ⟨fun _ => [], fun _ => false⟩

/-- `catalog::find_class` on the model: the registered definitions of a
class, if any (`find_class` returns null when the class has never been
defined). -/
def ScannerState.findClass (st : ScannerState) (name : String) :
    Option (List ClassDefinition) :=
  match st.classes name with
  | [] => none
  | d :: rest => some (d :: rest)

/-- `catalog::find_defined_type` on the model. -/
def ScannerState.findDefinedType (st : ScannerState) (name : String) : Bool :=
  st.definedTypes name

/-- `catalog::define_class`: append a definition for the class. -/
def ScannerState.defineClass (st : ScannerState) (name : String)
    (defn : ClassDefinition) : ScannerState :=
  { st with classes := fun n => if n = name then st.classes name ++ [defn] else st.classes n }

/-- `catalog::define_type`: record the defined type's name. -/
def ScannerState.defineType (st : ScannerState) (name : String) : ScannerState :=
  { st with definedTypes := fun n => n = name || st.definedTypes n }

/-- `scanning_visitor::can_define` (`definition_scanner.cc` line 441):
definitions are allowed only when the innermost class scope is named
(top level is the scope `"::"`). -/
def canDefine (scopes : List String) : Bool :=
  !(scopes.getLastD "").isEmpty

/-- `scanning_visitor::qualify` (`definition_scanner.cc` lines 446-464):
joins the class-scope names above top level with `::` and prefixes the
result to the name. -/
def qualify (scopes : List String) (name : String) : String :=
  if scopes.length < 2 then name
  else
    let qualified :=
      (scopes.drop 1).foldl (fun acc s => (if acc = "" then acc else acc ++ "::") ++ s) ""
    let qualified := if qualified = "" then qualified else qualified ++ "::"
    qualified ++ name

/-- `scanning_visitor::validate_name` (`definition_scanner.cc` lines
466-501): rejects definitions outside top level or a class body, empty
names, names starting with `::`, the reserved qualified names `main` and
`settings`, and cross-kind collisions; otherwise returns the qualified
name. -/
def validate_name (isClass : Bool) (scopes : List String) (st : ScannerState)
    (name : String) : Except ScanError String :=
  if !canDefine scopes then
    .error (.notTopLevel isClass)
  else if name = "" then
    .error (.emptyName isClass)
  else if "::".toList.isPrefixOf name.toList then
    .error (.invalidName name isClass)
  else
    let qualified := qualify scopes name
    if qualified = "main" || qualified = "settings" then
      .error (.reservedName qualified)
    else if isClass then
      if st.findDefinedType qualified then
        .error (.definedTypeConflict qualified)
      else
        .ok qualified
    else
      match st.findClass qualified with
      | some _ => .error (.classConflict qualified)
      | none => .ok qualified

/-- The resource metaparameter names
(`resource::is_metaparameter`; the implementation lives outside `src/`
and is modelled from the spec's metaparameter list in §3). -/
def metaparameters : List String :=
  ["before", "after", "require", "subscribe", "notify", "alias", "tag",
   "stage", "schedule", "audit", "loglevel", "noop"]

/-- A class or defined-type parameter as the scanner sees it: the
variable's name and whether it is a captures-rest parameter. -/
structure Parameter where
  name : String
  captures : Bool
deriving DecidableEq, Repr

/-- `scanning_visitor::validate_parameters` (`definition_scanner.cc`
lines 503-523): rejects parameters named `title` or `name`, captures-rest
parameters, and parameters named after a metaparameter. -/
def validate_parameters (isClass : Bool) : List Parameter → Except ScanError Unit
  | [] => .ok ()
  | p :: rest =>
    if p.name = "title" || p.name = "name" then
      .error (.reservedParameter p.name)
    else if p.captures then
      .error (.capturesParameter isClass p.name)
    else if metaparameters.contains p.name then
      .error (.metaparameterName p.name)
    else
      validate_parameters isClass rest

/-- The parent-consistency loop of
`scanning_visitor::operator()(ast::class_definition_expression const&)`
(`definition_scanner.cc` lines 311-335): existing definitions without a
parent are skipped; the first existing parent differing from the new one
raises the inheritance error. -/
def checkParents (klassTitle newParent : String) :
    List ClassDefinition → Except ScanError Unit
  | [] => .ok ()
  | d :: rest =>
    match d.parent with
    | none => checkParents klassTitle newParent rest
    | some existing =>
      if newParent = existing then checkParents klassTitle newParent rest
      else .error (.parentConflict klassTitle newParent existing)

/-- A class definition expression as the scanner consumes it: name,
parameters, optional `inherits` parent. -/
structure ClassExpr where
  name : String
  parameters : List Parameter
  parent : Option String
deriving DecidableEq, Repr

/-- `scanning_visitor::operator()(ast::class_definition_expression
const&)` (`definition_scanner.cc` lines 305-369), registration part:
validate the name, check the new parent against every previously
registered definition of the class, validate the parameters, then
register the definition. -/
def scanClassDef (scopes : List String) (st : ScannerState) (expr : ClassExpr) :
    Except ScanError ScannerState :=
  match validate_name true scopes st expr.name with
  | .error e => .error e
  | .ok qualified =>
    let parentCheck : Except ScanError Unit :=
      match expr.parent with
      | none => .ok ()
      | some parent =>
        match st.findClass qualified with
        | none => .ok ()
        | some defs => checkParents qualified parent defs
    match parentCheck with
    | .error e => .error e
    | .ok _ =>
      match validate_parameters true expr.parameters with
      | .error e => .error e
      | .ok _ => .ok (st.defineClass qualified ⟨expr.parent⟩)

/-- `scanning_visitor::operator()(ast::defined_type_expression const&)`
(`definition_scanner.cc` lines 371-402), registration part: validate the
parameters, then validate the name and register the defined type. -/
def scanTypeDef (scopes : List String) (st : ScannerState) (name : String)
    (parameters : List Parameter) : Except ScanError ScannerState :=
  match validate_parameters false parameters with
  | .error e => .error e
  | .ok _ =>
    match validate_name false scopes st name with
    | .error e => .error e
    | .ok qualified => .ok (st.defineType qualified)

/-- A registration event produced by the scanner's AST traversal, carrying
the class-scope stack in effect at the definition. -/
inductive ScanEvent where
  | classDef (scopes : List String) (expr : ClassExpr)
  | typeDef (scopes : List String) (name : String) (parameters : List Parameter)
deriving Repr

/-- Process one registration event. -/
def scanEvent (st : ScannerState) : ScanEvent → Except ScanError ScannerState
  | .classDef scopes expr => scanClassDef scopes st expr
  | .typeDef scopes name parameters => scanTypeDef scopes st name parameters

/-- Process a sequence of registration events (a scanned program),
stopping at the first error. -/
def scanEvents : List ScanEvent → ScannerState → Except ScanError ScannerState
  | [], st => .ok st
  | ev :: rest, st =>
    match scanEvent st ev with
    | .error e => .error e
    | .ok st1 => scanEvents rest st1

/-- The class-parent consistency invariant: within each class's
definition list, any two declared parents agree. -/
def parentsConsistent (st : ScannerState) : Prop :=
  ∀ name defs, st.findClass name = some defs →
    ∀ d1, d1 ∈ defs → ∀ d2, d2 ∈ defs →
      ∀ p q, d1.parent = some p → d2.parent = some q → p = q

/-! ## The grammar

`grammar.hpp` defines the parser as a set of Spirit rules.  The embedding
has two parts: a syntax-tree datatype mirroring the AST node types the
rules construct (token leaves collapsed to their text), and a derivation
relation `Produces`, with one index constructor per grammar rule and one
derivation constructor per production, describing exactly which trees each
rule can produce.  The `statement_expression` rule (lines 59-69) admits
every catalog expression; the `primary_expression`/`expression` rules
admit only collection expressions among catalog expressions (the
`catalog_expression` rule at lines 168-170 is `collection_expression`
alone), while statement blocks (`statements` inside
`if`/`unless`/`case`/lambda/definition bodies) again admit the statement
grammar. -/

/-- The binary operators of the `binary_operator` rule. -/
inductive GBinOp where
  | inOp | matchOp | notMatchOp | multiply | divide | modulo | plus | minus
  | leftShift | rightShift | equalsOp | notEqualsOp | greaterThan
  | greaterEquals | lessThan | lessEquals | logicalAnd | logicalOr
  | assignment | inEdge | inEdgeSubscribe | outEdge | outEdgeSubscribe

/-- The unary operators of the `unary_expression` rule. -/
inductive GUnaryOp where
  | negate | splat | logicalNot

/-- Resource statuses (`ast::resource_status`). -/
inductive GResStatus where
  | normal | virtualized | exported

mutual
/-- `ast::expression`: a primary expression followed by binary
operator/operand pairs. -/
inductive GExpr where
  | mk (primary : GPrimary) (binops : GBinList)

/-- The binary operator/operand pairs of an expression. -/
inductive GBinList where
  | nil
  | cons (op : GBinOp) (operand : GPrimary) (tail : GBinList)

/-- `ast::primary_expression`: basic, control-flow, catalog, unary,
parenthesised, or postfix expression. -/
inductive GPrimary where
  | basic (b : GBasic)
  | control (c : GControl)
  | catalog (c : GCatalog)
  | unary (op : GUnaryOp) (operand : GPrimary)
  | paren (e : GExpr)
  | postfixed (head : GPrimary) (subs : GPostList)

/-- `ast::basic_expression`. -/
inductive GBasic where
  | undef
  | defaulted
  | boolean (b : Bool)
  | number (n : Int)
  | strLit (s : String)
  | regexLit (s : String)
  | varRef (v : String)
  | nameRef (n : String)
  | bareWord (w : String)
  | typeRef (t : String)
  | arrayLit (elements : GExprList)
  | hashLit (pairs : GPairList)

/-- A list of expressions (the `expressions` rule, statement lists,
argument lists). -/
inductive GExprList where
  | nil
  | cons (head : GExpr) (tail : GExprList)

/-- A list of expression pairs (hash pairs, selector cases). -/
inductive GPairList where
  | nil
  | cons (first : GExpr) (second : GExpr) (tail : GPairList)

/-- `ast::control_flow_expression`: case, if, unless, and function calls
(the `statement_call_expression` rule builds the same function-call
node). -/
inductive GControl where
  | caseE (scrutinee : GExpr) (props : GPropList)
  | ifE (cond : GExpr) (body : GExprList) (elsifs : GElsifList) (elseBody : GExprList)
  | unlessE (cond : GExpr) (body : GExprList) (elseBody : GExprList)
  | call (fname : String) (args : GExprList) (lam : GOptLambda)

/-- Case propositions: option expressions and a statement body. -/
inductive GPropList where
  | nil
  | cons (options : GExprList) (body : GExprList) (tail : GPropList)

/-- `elsif` clauses: condition and statement body. -/
inductive GElsifList where
  | nil
  | cons (cond : GExpr) (body : GExprList) (tail : GElsifList)

/-- `ast::lambda`: parameters and a statement body. -/
inductive GLambda where
  | mk (params : GParamList) (body : GExprList)

/-- An optional lambda. -/
inductive GOptLambda where
  | none
  | some (l : GLambda)

/-- Typed parameters: optional type expression, captures-rest flag,
variable name, optional default expression. -/
inductive GParamList where
  | nil
  | cons (ptype : GOptPrimary) (captures : Bool) (vname : String)
      (default : GOptExpr) (tail : GParamList)

/-- An optional primary expression (parameter types). -/
inductive GOptPrimary where
  | none
  | some (p : GPrimary)

/-- An optional expression (parameter defaults). -/
inductive GOptExpr where
  | none
  | some (e : GExpr)

/-- `ast::catalog_expression`: resource declaration, resource defaults,
resource override, class definition, defined-type definition, node
definition, collection.  Hostnames and collector queries contain only
token leaves and are collapsed. -/
inductive GCatalog where
  | resource (status : GResStatus) (rtype : GPrimary) (bodies : GResBodyList)
  | defaults (tname : String) (attrs : GAttrList)
  | overrideE (ref : GPrimary) (attrs : GAttrList)
  | classDef (cname : String) (params : GParamList) (parent : Option String)
      (body : GExprList)
  | definedType (dname : String) (params : GParamList) (body : GExprList)
  | nodeDef (body : GExprList)
  | collection (exported : Bool) (tname : String)

/-- Resource bodies: title expression and attributes. -/
inductive GResBodyList where
  | nil
  | cons (title : GExpr) (attrs : GAttrList) (tail : GResBodyList)

/-- Attribute assignments: name, append flag (`+>` vs `=>`), value. -/
inductive GAttrList where
  | nil
  | cons (aname : String) (append : Bool) (value : GExpr) (tail : GAttrList)

/-- The postfix subexpressions applied to a primary. -/
inductive GPostList where
  | nil
  | cons (head : GPostOp) (tail : GPostList)

/-- `ast::postfix_subexpression`: selector, access, method call. -/
inductive GPostOp where
  | selector (cases : GPairList)
  | access (args : GExprList)
  | methodCall (m : String) (args : GExprList) (lam : GOptLambda)
end

/-- Whether a catalog expression is one of the six statement-only kinds
(everything except collection). -/
def GCatalog.isStatementOnly : GCatalog → Bool
  | .collection _ _ => false
  | _ => true

/-- The grammar rules, as indices of the derivation relation: each
constructor names a rule of `grammar.hpp` and carries the tree the rule
produced. -/
inductive Rule where
  | statements (body : GExprList)
  | statementR (e : GExpr)
  | statementBinops (l : GBinList)
  | statementExpr (p : GPrimary)
  | catalogStmt (c : GCatalog)
  | expressions (l : GExprList)
  | expressionR (e : GExpr)
  | expressionBinops (l : GBinList)
  | primaryR (p : GPrimary)
  | basicR (b : GBasic)
  | hashPairs (l : GPairList)
  | controlR (c : GControl)
  | casePropositions (l : GPropList)
  | elsifClauses (l : GElsifList)
  | lambdaR (l : GLambda)
  | optionalLambda (o : GOptLambda)
  | parameters (l : GParamList)
  | optionalType (o : GOptPrimary)
  | optionalDefault (o : GOptExpr)
  | resourceBodies (l : GResBodyList)
  | attributes (l : GAttrList)
  | postOps (l : GPostList)
  | postOpR (p : GPostOp)

/-- The derivation relation of the grammar: `Produces r` holds when the
rule named by `r` can produce the tree carried by `r`.  Constructors
mirror the productions of `grammar.hpp` one by one; in particular
`catalogStmt` (the catalog alternatives of `statement_expression`, lines
60-67) has no constructor for collection expressions, and `primaryR`
admits catalog expressions only through `primaryCollection` (the
`catalog_expression` rule, lines 168-170). -/
inductive Produces : Rule → Prop where
  -- statements: -(statement % -';') > -';'
  | statementsNil : Produces (.statements .nil)
  | statementsCons {e rest} : Produces (.statementR e) → Produces (.statements rest) →
      Produces (.statements (.cons e rest))
  -- statement: statement_expression > *binary_statement
  | statementMk {p bs} : Produces (.statementExpr p) → Produces (.statementBinops bs) →
      Produces (.statementR (.mk p bs))
  -- binary_statement: binary_operator > statement_expression
  | statementBinopsNil : Produces (.statementBinops .nil)
  | statementBinopsCons {op operand rest} : Produces (.statementExpr operand) →
      Produces (.statementBinops rest) → Produces (.statementBinops (.cons op operand rest))
  -- statement_expression: catalog alternatives | statement_call | primary
  | statementExprCatalog {c} : Produces (.catalogStmt c) →
      Produces (.statementExpr (.catalog c))
  | statementExprPrimary {p} : Produces (.primaryR p) → Produces (.statementExpr p)
  | statementExprCall {fname args lam} : Produces (.expressions args) →
      Produces (.optionalLambda lam) →
      Produces (.statementExpr (.control (.call fname args lam)))
  -- the six statement-only catalog alternatives
  | catalogResource {status rtype bodies} : Produces (.primaryR rtype) →
      Produces (.resourceBodies bodies) →
      Produces (.catalogStmt (.resource status rtype bodies))
  | catalogDefaults {tname attrs} : Produces (.attributes attrs) →
      Produces (.catalogStmt (.defaults tname attrs))
  | catalogOverride {ref attrs} : Produces (.primaryR ref) → Produces (.attributes attrs) →
      Produces (.catalogStmt (.overrideE ref attrs))
  | catalogClass {cname params parent body} : Produces (.parameters params) →
      Produces (.statements body) →
      Produces (.catalogStmt (.classDef cname params parent body))
  | catalogDefinedType {dname params body} : Produces (.parameters params) →
      Produces (.statements body) →
      Produces (.catalogStmt (.definedType dname params body))
  | catalogNode {body} : Produces (.statements body) →
      Produces (.catalogStmt (.nodeDef body))
  -- expressions: expression % ','
  | expressionsNil : Produces (.expressions .nil)
  | expressionsCons {e rest} : Produces (.expressionR e) → Produces (.expressions rest) →
      Produces (.expressions (.cons e rest))
  -- expression: primary_expression > *binary_expression
  | expressionMk {p bs} : Produces (.primaryR p) → Produces (.expressionBinops bs) →
      Produces (.expressionR (.mk p bs))
  -- binary_expression: binary_operator > primary_expression
  | expressionBinopsNil : Produces (.expressionBinops .nil)
  | expressionBinopsCons {op operand rest} : Produces (.primaryR operand) →
      Produces (.expressionBinops rest) →
      Produces (.expressionBinops (.cons op operand rest))
  -- primary_expression alternatives
  | primaryBasic {b} : Produces (.basicR b) → Produces (.primaryR (.basic b))
  | primaryControl {c} : Produces (.controlR c) → Produces (.primaryR (.control c))
  | primaryCollection {exported tname} :
      Produces (.primaryR (.catalog (.collection exported tname)))
  | primaryUnary {op operand} : Produces (.primaryR operand) →
      Produces (.primaryR (.unary op operand))
  | primaryParen {e} : Produces (.expressionR e) → Produces (.primaryR (.paren e))
  | primaryPostfixed {head subs} : Produces (.primaryR head) → Produces (.postOps subs) →
      Produces (.primaryR (.postfixed head subs))
  -- basic_expression alternatives
  | basicUndef : Produces (.basicR .undef)
  | basicDefaulted : Produces (.basicR .defaulted)
  | basicBoolean {b} : Produces (.basicR (.boolean b))
  | basicNumber {n} : Produces (.basicR (.number n))
  | basicStr {s} : Produces (.basicR (.strLit s))
  | basicRegex {s} : Produces (.basicR (.regexLit s))
  | basicVar {v} : Produces (.basicR (.varRef v))
  | basicName {n} : Produces (.basicR (.nameRef n))
  | basicBareWord {w} : Produces (.basicR (.bareWord w))
  | basicType {t} : Produces (.basicR (.typeRef t))
  | basicArray {elements} : Produces (.expressions elements) →
      Produces (.basicR (.arrayLit elements))
  | basicHash {pairs} : Produces (.hashPairs pairs) → Produces (.basicR (.hashLit pairs))
  -- hash_pair: expression > '=>' > expression (also selector cases)
  | hashPairsNil : Produces (.hashPairs .nil)
  | hashPairsCons {a b rest} : Produces (.expressionR a) → Produces (.expressionR b) →
      Produces (.hashPairs rest) → Produces (.hashPairs (.cons a b rest))
  -- control_flow_expression alternatives
  | controlCase {scrutinee props} : Produces (.expressionR scrutinee) →
      Produces (.casePropositions props) → Produces (.controlR (.caseE scrutinee props))
  | controlIf {cond body elsifs elseBody} : Produces (.expressionR cond) →
      Produces (.statements body) → Produces (.elsifClauses elsifs) →
      Produces (.statements elseBody) →
      Produces (.controlR (.ifE cond body elsifs elseBody))
  | controlUnless {cond body elseBody} : Produces (.expressionR cond) →
      Produces (.statements body) → Produces (.statements elseBody) →
      Produces (.controlR (.unlessE cond body elseBody))
  | controlCall {fname args lam} : Produces (.expressions args) →
      Produces (.optionalLambda lam) → Produces (.controlR (.call fname args lam))
  -- case_proposition: expressions > ':' > '{' > statements > '}'
  | casePropositionsNil : Produces (.casePropositions .nil)
  | casePropositionsCons {options body rest} : Produces (.expressions options) →
      Produces (.statements body) → Produces (.casePropositions rest) →
      Produces (.casePropositions (.cons options body rest))
  -- elsif_expression: 'elsif' > expression > '{' > statements > '}'
  | elsifClausesNil : Produces (.elsifClauses .nil)
  | elsifClausesCons {cond body rest} : Produces (.expressionR cond) →
      Produces (.statements body) → Produces (.elsifClauses rest) →
      Produces (.elsifClauses (.cons cond body rest))
  -- lambda: '|' parameters '|' '{' statements '}'
  | lambdaMk {params body} : Produces (.parameters params) → Produces (.statements body) →
      Produces (.lambdaR (.mk params body))
  | optionalLambdaNone : Produces (.optionalLambda .none)
  | optionalLambdaSome {l} : Produces (.lambdaR l) → Produces (.optionalLambda (.some l))
  -- parameter: -type_expression >> matches['*'] >> variable >> -('=' > expression)
  | parametersNil : Produces (.parameters .nil)
  | parametersCons {ptype captures vname default rest} : Produces (.optionalType ptype) →
      Produces (.optionalDefault default) → Produces (.parameters rest) →
      Produces (.parameters (.cons ptype captures vname default rest))
  | optionalTypeNone : Produces (.optionalType .none)
  | optionalTypeSome {p} : Produces (.primaryR p) → Produces (.optionalType (.some p))
  | optionalDefaultNone : Produces (.optionalDefault .none)
  | optionalDefaultSome {e} : Produces (.expressionR e) →
      Produces (.optionalDefault (.some e))
  -- resource_body: (expression >> ':') > attributes
  | resourceBodiesNil : Produces (.resourceBodies .nil)
  | resourceBodiesCons {title attrs rest} : Produces (.expressionR title) →
      Produces (.attributes attrs) → Produces (.resourceBodies rest) →
      Produces (.resourceBodies (.cons title attrs rest))
  -- attribute_expression: attribute_name > attribute_operator > expression
  | attributesNil : Produces (.attributes .nil)
  | attributesCons {aname append value rest} : Produces (.expressionR value) →
      Produces (.attributes rest) → Produces (.attributes (.cons aname append value rest))
  -- postfix subexpressions
  | postOpsNil : Produces (.postOps .nil)
  | postOpsCons {head rest} : Produces (.postOpR head) → Produces (.postOps rest) →
      Produces (.postOps (.cons head rest))
  | postOpSelector {cases} : Produces (.hashPairs cases) →
      Produces (.postOpR (.selector cases))
  | postOpAccess {args} : Produces (.expressions args) → Produces (.postOpR (.access args))
  | postOpMethodCall {m args lam} : Produces (.expressions args) →
      Produces (.optionalLambda lam) → Produces (.postOpR (.methodCall m args lam))

/-- A node of the syntax tree, packed over the carrier types (used to
state where statement-only catalog expressions can occur). -/
inductive Node where
  | expr (e : GExpr)
  | binops (l : GBinList)
  | prim (p : GPrimary)
  | basicN (b : GBasic)
  | exprList (l : GExprList)
  | pairList (l : GPairList)
  | controlN (c : GControl)
  | propList (l : GPropList)
  | elsifList (l : GElsifList)
  | lambdaN (l : GLambda)
  | optLambda (o : GOptLambda)
  | paramList (l : GParamList)
  | optPrim (o : GOptPrimary)
  | optExpr (o : GOptExpr)
  | catalogN (c : GCatalog)
  | resBodies (l : GResBodyList)
  | attrList (l : GAttrList)
  | postList (l : GPostList)
  | postOpN (p : GPostOp)

/-- `ContainsBad n` holds when a statement-only catalog expression
(resource declaration, resource defaults, resource override, class,
defined-type or node definition) occurs anywhere in the tree packed in
`n`, at any depth, including inside nested statement blocks. -/
inductive ContainsBad : Node → Prop where
  | found {c} : c.isStatementOnly = true → ContainsBad (.catalogN c)
  | exprPrimary {p bs} : ContainsBad (.prim p) → ContainsBad (.expr (.mk p bs))
  | exprBinops {p bs} : ContainsBad (.binops bs) → ContainsBad (.expr (.mk p bs))
  | binopsHead {op operand rest} : ContainsBad (.prim operand) →
      ContainsBad (.binops (.cons op operand rest))
  | binopsTail {op operand rest} : ContainsBad (.binops rest) →
      ContainsBad (.binops (.cons op operand rest))
  | primBasic {b} : ContainsBad (.basicN b) → ContainsBad (.prim (.basic b))
  | primControl {c} : ContainsBad (.controlN c) → ContainsBad (.prim (.control c))
  | primCatalog {c} : ContainsBad (.catalogN c) → ContainsBad (.prim (.catalog c))
  | primUnary {op operand} : ContainsBad (.prim operand) →
      ContainsBad (.prim (.unary op operand))
  | primParen {e} : ContainsBad (.expr e) → ContainsBad (.prim (.paren e))
  | primPostfixedHead {head subs} : ContainsBad (.prim head) →
      ContainsBad (.prim (.postfixed head subs))
  | primPostfixedSubs {head subs} : ContainsBad (.postList subs) →
      ContainsBad (.prim (.postfixed head subs))
  | basicArray {elements} : ContainsBad (.exprList elements) →
      ContainsBad (.basicN (.arrayLit elements))
  | basicHash {pairs} : ContainsBad (.pairList pairs) →
      ContainsBad (.basicN (.hashLit pairs))
  | exprListHead {e rest} : ContainsBad (.expr e) → ContainsBad (.exprList (.cons e rest))
  | exprListTail {e rest} : ContainsBad (.exprList rest) →
      ContainsBad (.exprList (.cons e rest))
  | pairListFirst {a b rest} : ContainsBad (.expr a) →
      ContainsBad (.pairList (.cons a b rest))
  | pairListSecond {a b rest} : ContainsBad (.expr b) →
      ContainsBad (.pairList (.cons a b rest))
  | pairListTail {a b rest} : ContainsBad (.pairList rest) →
      ContainsBad (.pairList (.cons a b rest))
  | caseScrutinee {scrutinee props} : ContainsBad (.expr scrutinee) →
      ContainsBad (.controlN (.caseE scrutinee props))
  | caseProps {scrutinee props} : ContainsBad (.propList props) →
      ContainsBad (.controlN (.caseE scrutinee props))
  | ifCond {cond body elsifs elseBody} : ContainsBad (.expr cond) →
      ContainsBad (.controlN (.ifE cond body elsifs elseBody))
  | ifBody {cond body elsifs elseBody} : ContainsBad (.exprList body) →
      ContainsBad (.controlN (.ifE cond body elsifs elseBody))
  | ifElsifs {cond body elsifs elseBody} : ContainsBad (.elsifList elsifs) →
      ContainsBad (.controlN (.ifE cond body elsifs elseBody))
  | ifElse {cond body elsifs elseBody} : ContainsBad (.exprList elseBody) →
      ContainsBad (.controlN (.ifE cond body elsifs elseBody))
  | unlessCond {cond body elseBody} : ContainsBad (.expr cond) →
      ContainsBad (.controlN (.unlessE cond body elseBody))
  | unlessBody {cond body elseBody} : ContainsBad (.exprList body) →
      ContainsBad (.controlN (.unlessE cond body elseBody))
  | unlessElse {cond body elseBody} : ContainsBad (.exprList elseBody) →
      ContainsBad (.controlN (.unlessE cond body elseBody))
  | callArgs {fname args lam} : ContainsBad (.exprList args) →
      ContainsBad (.controlN (.call fname args lam))
  | callLambda {fname args lam} : ContainsBad (.optLambda lam) →
      ContainsBad (.controlN (.call fname args lam))
  | propOptions {options body rest} : ContainsBad (.exprList options) →
      ContainsBad (.propList (.cons options body rest))
  | propBody {options body rest} : ContainsBad (.exprList body) →
      ContainsBad (.propList (.cons options body rest))
  | propTail {options body rest} : ContainsBad (.propList rest) →
      ContainsBad (.propList (.cons options body rest))
  | elsifCond {cond body rest} : ContainsBad (.expr cond) →
      ContainsBad (.elsifList (.cons cond body rest))
  | elsifBody {cond body rest} : ContainsBad (.exprList body) →
      ContainsBad (.elsifList (.cons cond body rest))
  | elsifTail {cond body rest} : ContainsBad (.elsifList rest) →
      ContainsBad (.elsifList (.cons cond body rest))
  | lambdaParams {params body} : ContainsBad (.paramList params) →
      ContainsBad (.lambdaN (.mk params body))
  | lambdaBody {params body} : ContainsBad (.exprList body) →
      ContainsBad (.lambdaN (.mk params body))
  | optLambdaSome {l} : ContainsBad (.lambdaN l) → ContainsBad (.optLambda (.some l))
  | paramType {ptype captures vname default rest} : ContainsBad (.optPrim ptype) →
      ContainsBad (.paramList (.cons ptype captures vname default rest))
  | paramDefault {ptype captures vname default rest} : ContainsBad (.optExpr default) →
      ContainsBad (.paramList (.cons ptype captures vname default rest))
  | paramTail {ptype captures vname default rest} : ContainsBad (.paramList rest) →
      ContainsBad (.paramList (.cons ptype captures vname default rest))
  | optPrimSome {p} : ContainsBad (.prim p) → ContainsBad (.optPrim (.some p))
  | optExprSome {e} : ContainsBad (.expr e) → ContainsBad (.optExpr (.some e))
  | postListHead {head rest} : ContainsBad (.postOpN head) →
      ContainsBad (.postList (.cons head rest))
  | postListTail {head rest} : ContainsBad (.postList rest) →
      ContainsBad (.postList (.cons head rest))
  | postSelector {cases} : ContainsBad (.pairList cases) →
      ContainsBad (.postOpN (.selector cases))
  | postAccess {args} : ContainsBad (.exprList args) →
      ContainsBad (.postOpN (.access args))
  | postMethodArgs {m args lam} : ContainsBad (.exprList args) →
      ContainsBad (.postOpN (.methodCall m args lam))
  | postMethodLambda {m args lam} : ContainsBad (.optLambda lam) →
      ContainsBad (.postOpN (.methodCall m args lam))

/-- `DirectBad n` holds when a statement-only catalog expression occurs in
the tree packed in `n` at an expression position reachable WITHOUT
crossing a braced statement block: it descends into operands, array and
hash elements, conditions, case options, call and access arguments,
parameter types and defaults, and selector cases, but not into the
`statements` bodies of `if`/`unless`/`case`/lambda (nor into the
statement-only catalog expressions themselves). -/
inductive DirectBad : Node → Prop where
  | found {c} : GCatalog.isStatementOnly c = true → DirectBad (.prim (.catalog c))
  | exprPrimary {p bs} : DirectBad (.prim p) → DirectBad (.expr (.mk p bs))
  | exprBinops {p bs} : DirectBad (.binops bs) → DirectBad (.expr (.mk p bs))
  | binopsHead {op operand rest} : DirectBad (.prim operand) →
      DirectBad (.binops (.cons op operand rest))
  | binopsTail {op operand rest} : DirectBad (.binops rest) →
      DirectBad (.binops (.cons op operand rest))
  | primBasic {b} : DirectBad (.basicN b) → DirectBad (.prim (.basic b))
  | primControl {c} : DirectBad (.controlN c) → DirectBad (.prim (.control c))
  | primUnary {op operand} : DirectBad (.prim operand) →
      DirectBad (.prim (.unary op operand))
  | primParen {e} : DirectBad (.expr e) → DirectBad (.prim (.paren e))
  | primPostfixedHead {head subs} : DirectBad (.prim head) →
      DirectBad (.prim (.postfixed head subs))
  | primPostfixedSubs {head subs} : DirectBad (.postList subs) →
      DirectBad (.prim (.postfixed head subs))
  | basicArray {elements} : DirectBad (.exprList elements) →
      DirectBad (.basicN (.arrayLit elements))
  | basicHash {pairs} : DirectBad (.pairList pairs) →
      DirectBad (.basicN (.hashLit pairs))
  | exprListHead {e rest} : DirectBad (.expr e) → DirectBad (.exprList (.cons e rest))
  | exprListTail {e rest} : DirectBad (.exprList rest) →
      DirectBad (.exprList (.cons e rest))
  | pairListFirst {a b rest} : DirectBad (.expr a) →
      DirectBad (.pairList (.cons a b rest))
  | pairListSecond {a b rest} : DirectBad (.expr b) →
      DirectBad (.pairList (.cons a b rest))
  | pairListTail {a b rest} : DirectBad (.pairList rest) →
      DirectBad (.pairList (.cons a b rest))
  | caseScrutinee {scrutinee props} : DirectBad (.expr scrutinee) →
      DirectBad (.controlN (.caseE scrutinee props))
  | caseProps {scrutinee props} : DirectBad (.propList props) →
      DirectBad (.controlN (.caseE scrutinee props))
  | ifCond {cond body elsifs elseBody} : DirectBad (.expr cond) →
      DirectBad (.controlN (.ifE cond body elsifs elseBody))
  | ifElsifs {cond body elsifs elseBody} : DirectBad (.elsifList elsifs) →
      DirectBad (.controlN (.ifE cond body elsifs elseBody))
  | unlessCond {cond body elseBody} : DirectBad (.expr cond) →
      DirectBad (.controlN (.unlessE cond body elseBody))
  | callArgs {fname args lam} : DirectBad (.exprList args) →
      DirectBad (.controlN (.call fname args lam))
  | callLambda {fname args lam} : DirectBad (.optLambda lam) →
      DirectBad (.controlN (.call fname args lam))
  | propOptions {options body rest} : DirectBad (.exprList options) →
      DirectBad (.propList (.cons options body rest))
  | propTail {options body rest} : DirectBad (.propList rest) →
      DirectBad (.propList (.cons options body rest))
  | elsifCond {cond body rest} : DirectBad (.expr cond) →
      DirectBad (.elsifList (.cons cond body rest))
  | elsifTail {cond body rest} : DirectBad (.elsifList rest) →
      DirectBad (.elsifList (.cons cond body rest))
  | lambdaParams {params body} : DirectBad (.paramList params) →
      DirectBad (.lambdaN (.mk params body))
  | optLambdaSome {l} : DirectBad (.lambdaN l) → DirectBad (.optLambda (.some l))
  | paramType {ptype captures vname default rest} : DirectBad (.optPrim ptype) →
      DirectBad (.paramList (.cons ptype captures vname default rest))
  | paramDefault {ptype captures vname default rest} : DirectBad (.optExpr default) →
      DirectBad (.paramList (.cons ptype captures vname default rest))
  | paramTail {ptype captures vname default rest} : DirectBad (.paramList rest) →
      DirectBad (.paramList (.cons ptype captures vname default rest))
  | optPrimSome {p} : DirectBad (.prim p) → DirectBad (.optPrim (.some p))
  | optExprSome {e} : DirectBad (.expr e) → DirectBad (.optExpr (.some e))
  | postListHead {head rest} : DirectBad (.postOpN head) →
      DirectBad (.postList (.cons head rest))
  | postListTail {head rest} : DirectBad (.postList rest) →
      DirectBad (.postList (.cons head rest))
  | postSelector {cases} : DirectBad (.pairList cases) →
      DirectBad (.postOpN (.selector cases))
  | postAccess {args} : DirectBad (.exprList args) →
      DirectBad (.postOpN (.access args))
  | postMethodArgs {m args lam} : DirectBad (.exprList args) →
      DirectBad (.postOpN (.methodCall m args lam))
  | postMethodLambda {m args lam} : DirectBad (.optLambda lam) →
      DirectBad (.postOpN (.methodCall m args lam))

/-- The expression-grammar rule associated with each packed node (used to
run the induction for the statement-only property along `DirectBad`
paths, which stay within the expression grammar). -/
def nodeRule : Node → Rule
  | .expr e => .expressionR e
  | .binops l => .expressionBinops l
  | .prim p => .primaryR p
  | .basicN b => .basicR b
  | .exprList l => .expressions l
  | .pairList l => .hashPairs l
  | .controlN c => .controlR c
  | .propList l => .casePropositions l
  | .elsifList l => .elsifClauses l
  | .lambdaN l => .lambdaR l
  | .optLambda o => .optionalLambda o
  | .paramList l => .parameters l
  | .optPrim o => .optionalType o
  | .optExpr o => .optionalDefault o
  | .catalogN c => .catalogStmt c
  | .resBodies l => .resourceBodies l
  | .attrList l => .attributes l
  | .postList l => .postOps l
  | .postOpN p => .postOpR p


/-! ## Concrete instances used in examples and witnesses -/

/-- The yield of the lambda of the spec's filter scenario: one parameter
bound to the element, body evaluating the comparison with 1
(the evaluator's greater-than on integers). -/
def exampleGreaterYield : List Value → Value
  | [.integer n] => .boolean (decide (1 < n))
  | _ => .boolean false

/-- The `main` paths that return `EXIT_FAILURE` from the
`settings_exception` handler regardless of the error counters. -/
def settingsFailure (cfg : MainConfig) : Bool :=
  cfg.settingsCtorFails || (!cfg.showVersion && !cfg.showHelp && cfg.manifestsEmpty)

/-- The case-insensitive key of a character list: every character folded
with `toupper`.  Case-insensitive lexicographic order on strings is
lexicographic order on these keys. -/
def ciKey (l : List Char) : List Char := l.map toUpperCh

/-- A resource declaration `file { '/tmp/x': }` (a statement-only catalog
expression). -/
def exampleResource : GCatalog :=
  .resource .normal (.basic (.nameRef "file"))
    (.cons (.mk (.basic (.strLit "/tmp/x")) .nil) .nil .nil)

/-- The resource declaration as a statement. -/
def exampleResourceStmt : GExpr := .mk (.catalog exampleResource) .nil

/-- `if true { file { '/tmp/x': } }`: an if expression whose statement
body declares a resource. -/
def exampleIfWithResource : GControl :=
  .ifE (.mk (.basic (.boolean true)) .nil) (.cons exampleResourceStmt .nil) .nil .nil

/-- `[ if true { file { '/tmp/x': } } ]`: an array literal (a
sub-expression position) containing the if expression; the resource
declaration is nested inside a sub-expression of this accepted tree. -/
def exampleBadExpr : GExpr :=
  .mk (.basic (.arrayLit (.cons (.mk (.control exampleIfWithResource) .nil) .nil))) .nil

/-! ## Theorems -/

/-- A value that is not a `variable` dereferences to itself. -/
theorem dereference_of_not_variable (v : Value) (h : v.isVariable = false) :
    dereference v = v := by
  cases v <;> first
    | rfl
    | simp [Value.isVariable] at h

/-- The result of `dereference` is never a `variable` value (the loop runs
until the result is not a variable). -/
theorem dereference_isVariable_false : (v : Value) → (dereference v).isVariable = false
  | .undef => rfl
  | .defaulted => rfl
  | .boolean _ => rfl
  | .integer _ => rfl
  | .floating _ => rfl
  | .str _ => rfl
  | .regex _ => rfl
  | .type _ => rfl
  | .array _ => rfl
  | .hash _ => rfl
  | .variableVal _ referenced => by
    have h := dereference_isVariable_false referenced
    simpa [dereference] using h

/-- Claim C10: for every value, `dereference` returns a value that is not
itself a variable reference, and `dereference` is idempotent:
`dereference (dereference v) = dereference v` for every value `v`. -/
theorem dereference_not_variable_and_idempotent :
    ∀ v : Value, (dereference v).isVariable = false ∧
      dereference (dereference v) = dereference v := by
  intro v
  have h := dereference_isVariable_false v
  exact ⟨h, dereference_of_not_variable _ h⟩

/-- Claim C1: evaluating the split function at the spec's own example
shows that the string-delimiter path DROPS the empty substring between
the adjacent delimiters (`if (!*it) continue;` in `split.cc` line 25):
the split iterator produces the ranges `a`, `b`, `<empty>`, `c`, and the
loop keeps only the non-empty ones, so the result is
`['a','b','c']`, not the spec's `['a','b','','c']`. -/
theorem split_drops_empty_substrings :
    split_string "a,b,,c" "," = ["a", "b", "c"] ∧
    splitRanges [','] "a,b,,c".toList = [['a'], ['b'], [], ['c']] := by
  constructor
  · decide
  · decide

/-- Claim C2: the integer left-shift visitor performs no overflow
detection at all: for every pair of `int64_t` operands it returns a
(possibly wrapped) integer and never an evaluation error; in particular
`1 << 63`, which overflows the 64-bit range, yields the wrapped value
`-9223372036854775808` instead of an error. -/
theorem left_shift_never_detects_overflow :
    left_shift (.integer 1) (.integer 63) = .ok (.integer (-9223372036854775808)) ∧
    ∀ l r : Int, left_shift (.integer l) (.integer r) = .ok (.integer (leftShiftInts l r)) := by
  constructor
  · rfl
  · intro l r
    rfl

/-- Counterexample to claim C4: dividing the float zero by the float zero
is an IEEE invalid operation, not a division by zero: `FE_DIVBYZERO` is
not raised, so the code returns NaN instead of raising the claimed
`cannot divide by zero.` error, although the divisor is zero. -/
theorem divide_float_zero_by_zero_returns_nan :
    divide (.floating (.finite 0)) (.floating (.finite 0)) = .ok (.floating .nan) := by
  rfl

/-- Claim C4 (amended): integer division by zero and `INT64_MIN / -1`
raise the claimed errors and all other integer divisions return the
truncated quotient; float division by zero raises
`cannot divide by zero.` exactly when the dividend is a nonzero finite
float, while `0.0 / 0.0` returns NaN without an error. -/
theorem divide_characterization :
    (∀ l : Int, divide (.integer l) (.integer 0) = .error "cannot divide by zero.") ∧
    divide (.integer (-(2 ^ 63))) (.integer (-1)) =
      .error "division of -9223372036854775808 by -1 results in an arithmetic overflow." ∧
    (∀ l r : Int, r ≠ 0 → (l ≠ -(2 ^ 63) ∨ r ≠ -1) →
      divide (.integer l) (.integer r) = .ok (.integer (l.tdiv r))) ∧
    (∀ q : ℚ, q ≠ 0 → divide (.floating (.finite q)) (.floating (.finite 0)) =
      .error "cannot divide by zero.") ∧
    divide (.floating (.finite 0)) (.floating (.finite 0)) = .ok (.floating .nan) := by
  refine ⟨?_, ?_, ?_, ?_, ?_⟩
  · intro l
    simp [divide, dereference, divideVisitor, divideInts]
  · rfl
  · intro l r hr hlr
    simp only [divide, dereference, divideVisitor, divideInts]
    rw [if_neg hr, if_neg]
    simp only [Bool.and_eq_true, decide_eq_true_eq, not_and]
    intro hl
    rcases hlr with h | h
    · exact absurd hl h
    · exact h
  · intro q hq
    simp [divide, dereference, divideVisitor, divideFloats, ldDiv, hq]
  · rfl

/-- Witness for the amended claim C4 at concrete inputs. -/
theorem divide_characterization_witness :
    divide (.integer 7) (.integer 2) = .ok (.integer 3) ∧
    divide (.floating (.finite 1)) (.floating (.finite 0)) =
      .error "cannot divide by zero." := by
  constructor
  · simpa using divide_characterization.2.2.1 7 2 (by decide) (Or.inl (by decide))
  · exact divide_characterization.2.2.2.1 1 (by decide)

/-- The filter loop with a one-parameter lambda keeps exactly the
elements whose yield is the boolean `true`, independent of the element
index. -/
theorem filterArrayAux_one_eq_filter (yield : List Value → Value) :
    ∀ (l : List Value) (i : Nat),
      filterArrayAux 1 yield l i = l.filter (fun v => is_true (yield [v])) := by
  intro l
  induction l with
  | nil => intro i; rfl
  | cons v rest ih =>
    intro i
    simp only [filterArrayAux, List.filter]
    rcases h : is_true (yield [v]) with _ | _ <;> simp [h, ih]

/-- Claim C6: for every array argument and every one-parameter lambda,
`filter` returns exactly those elements, in their original order, for
which yielding the element produces the boolean `true`; in particular
filtering `[1,2,3]` with `|$v| { $v > 1 }` returns `[2,3]`. -/
theorem filter_array_keeps_elements_yielding_true :
    (∀ (yield : List Value → Value) (elements : List Value),
      filterArray 1 yield elements = elements.filter (fun v => is_true (yield [v]))) ∧
    filterArray 1 exampleGreaterYield [.integer 1, .integer 2, .integer 3] =
      [.integer 2, .integer 3] := by
  constructor
  · intro yield elements
    exact filterArrayAux_one_eq_filter yield elements 0
  · decide

/-- `boost::ilexicographical_compare` decides strict lexicographic order
on the case-folded keys. -/
theorem ilexicographicalCompare_iff_lex :
    ∀ l r : List Char,
      ilexicographicalCompare l r = true ↔ List.Lex (· < ·) (ciKey l) (ciKey r) := by
  intro l
  induction l with
  | nil =>
    intro r
    cases r with
    | nil =>
      simp only [ilexicographicalCompare, ciKey, List.map_nil]
      constructor
      · intro h
        exact absurd h (by decide)
      · intro h
        cases h
    | cons b bs =>
      simp only [ilexicographicalCompare, ciKey, List.map_nil, List.map_cons]
      constructor
      · intro _
        exact List.Lex.nil
      · intro _
        trivial
  | cons a as ih =>
    intro r
    cases r with
    | nil =>
      simp only [ilexicographicalCompare, ciKey, List.map_nil, List.map_cons]
      constructor
      · intro h
        exact absurd h (by decide)
      · intro h
        cases h
    | cons b bs =>
      simp only [ciKey] at ih
      simp only [ilexicographicalCompare, ciKey, List.map_cons]
      generalize toUpperCh a = ua
      generalize toUpperCh b = ub
      by_cases h1 : ua.toNat < ub.toNat
      · simp only [h1, if_true]
        constructor
        · intro _
          exact List.Lex.rel h1
        · intro _
          trivial
      · by_cases h2 : ub.toNat < ua.toNat
        · simp only [h1, h2, if_true, if_false]
          constructor
          · intro h
            exact absurd h (by decide)
          · intro hlex
            cases hlex with
            | cons h => exact absurd h2 (by omega)
            | rel h => exact absurd h h1
        · have hn : ua.toNat = ub.toNat := by omega
          have heq : ua = ub := Char.eq_of_val_eq (UInt32.ext hn)
          subst heq
          simp only [h1, h2, if_false]
          constructor
          · intro h
            exact List.Lex.cons ((ih bs).mp h)
          · intro hlex
            cases hlex with
            | cons h => exact (ih bs).mpr h
            | rel h => exact absurd h (lt_irrefl _)

/-- `boost::iequals` decides equality of the case-folded keys. -/
theorem iequalsChars_iff_ciKey_eq :
    ∀ l r : List Char, iequalsChars l r = true ↔ ciKey l = ciKey r := by
  intro l
  induction l with
  | nil =>
    intro r
    cases r <;> simp [iequalsChars, ciKey]
  | cons a as ih =>
    intro r
    cases r with
    | nil => simp [iequalsChars, ciKey]
    | cons b bs =>
      simp only [ciKey] at ih
      simp only [iequalsChars, ciKey, List.map_cons, Bool.and_eq_true,
        decide_eq_true_eq, List.cons.injEq, ih bs]

/-- Claim C5: for string operands, `<=` returns true iff the left string
precedes the right in case-insensitive lexicographic order (lexicographic
order of the case-folded keys) or the two strings are case-insensitively
equal; for type operands, `<=` returns true iff the operands are equal or
the right is a specialization of the left. -/
theorem less_equal_strings_and_types :
    (∀ (isSpec : PType → PType → Bool) (l r : String),
      less_equal isSpec (.str l) (.str r) = .ok (.boolean true) ↔
        (List.Lex (· < ·) (ciKey l.toList) (ciKey r.toList) ∨
          ciKey l.toList = ciKey r.toList)) ∧
    (∀ (isSpec : PType → PType → Bool) (a b : PType),
      less_equal isSpec (.type a) (.type b) = .ok (.boolean true) ↔
        (a = b ∨ isSpec b a = true)) := by
  constructor
  · intro isSpec l r
    show Except.ok (Value.boolean (lessEqualStrings l.toList r.toList)) = _ ↔ _
    rw [← ilexicographicalCompare_iff_lex, ← iequalsChars_iff_ciKey_eq]
    simp [lessEqualStrings]
  · intro isSpec a b
    show Except.ok (Value.boolean (decide (a = b) || isSpec b a)) = _ ↔ _
    simp

/-- A successful `validate_name` returns exactly the scope-qualified
name. -/
theorem validate_name_ok_eq (isClass : Bool) (scopes : List String)
    (st : ScannerState) (name : String) (q : String)
    (h : validate_name isClass scopes st name = .ok q) : q = qualify scopes name := by
  simp only [validate_name] at h
  split_ifs at h
  all_goals try (split at h)
  all_goals first
    | exact Except.noConfusion h
    | (injection h with h
       exact h.symm)

/-- `validate_name` raises an error exactly when the definition is not at
top level or in a class body, the name is empty or starts with `::`, the
qualified name is reserved, or the qualified name is registered as the
other kind of definition. -/
theorem validate_name_error_iff (isClass : Bool) (scopes : List String)
    (st : ScannerState) (name : String) :
    (∃ e, validate_name isClass scopes st name = .error e) ↔
      (canDefine scopes = false ∨ name = "" ∨ "::".toList.isPrefixOf name.toList = true ∨
       qualify scopes name = "main" ∨ qualify scopes name = "settings" ∨
       (isClass = true ∧ st.findDefinedType (qualify scopes name) = true) ∨
       (isClass = false ∧ st.findClass (qualify scopes name) ≠ none)) := by
  by_cases h1 : canDefine scopes
  case neg =>
    have hb : canDefine scopes = false := by simpa using h1
    constructor
    · intro _
      exact Or.inl hb
    · intro _
      exact ⟨.notTopLevel isClass, by simp [validate_name, hb]⟩
  case pos =>
    have hb : canDefine scopes = true := h1
    by_cases h2 : name = ""
    · constructor
      · intro _
        exact Or.inr (Or.inl h2)
      · intro _
        exact ⟨.emptyName isClass, by simp [validate_name, hb, h2]⟩
    · by_cases h3 : "::".toList.isPrefixOf name.toList
      · have h3p : [':', ':'] <+: name.data := by simpa using h3
        constructor
        · intro _
          exact Or.inr (Or.inr (Or.inl h3))
        · intro _
          exact ⟨.invalidName name isClass, by simp [validate_name, hb, h2, h3p]⟩
      · have h3n : ¬([':', ':'] <+: name.data) := by simpa using h3
        by_cases h4 : qualify scopes name = "main"
        · constructor
          · intro _
            exact Or.inr (Or.inr (Or.inr (Or.inl h4)))
          · intro _
            exact ⟨.reservedName (qualify scopes name),
              by simp [validate_name, hb, h2, h3n, h4]⟩
        · by_cases h5 : qualify scopes name = "settings"
          · constructor
            · intro _
              exact Or.inr (Or.inr (Or.inr (Or.inr (Or.inl h5))))
            · intro _
              exact ⟨.reservedName (qualify scopes name),
                by simp [validate_name, hb, h2, h3n, h4, h5]⟩
          · cases isClass with
            | true =>
              by_cases h6 : st.findDefinedType (qualify scopes name)
              · constructor
                · intro _
                  exact Or.inr (Or.inr (Or.inr (Or.inr (Or.inr (Or.inl ⟨rfl, h6⟩)))))
                · intro _
                  exact ⟨.definedTypeConflict (qualify scopes name),
                    by simp [validate_name, hb, h2, h3n, h4, h5, h6]⟩
              · have h6b : st.findDefinedType (qualify scopes name) = false := by
                  simpa using h6
                have hok : validate_name true scopes st name = .ok (qualify scopes name) := by
                  simp [validate_name, hb, h2, h3n, h4, h5, h6b]
                constructor
                · intro ⟨e, he⟩
                  rw [hok] at he
                  exact Except.noConfusion he
                · intro hd
                  rcases hd with h | h | h | h | h | ⟨_, h⟩ | ⟨h, _⟩
                  · rw [hb] at h
                    exact Bool.noConfusion h
                  · exact absurd h h2
                  · exact absurd h h3
                  · exact absurd h h4
                  · exact absurd h h5
                  · exact absurd h h6
                  · exact Bool.noConfusion h
            | false =>
              cases hfc : st.findClass (qualify scopes name) with
              | some defs =>
                constructor
                · intro _
                  refine Or.inr (Or.inr (Or.inr (Or.inr (Or.inr (Or.inr ⟨rfl, ?_⟩)))))
                  simp [hfc]
                · intro _
                  exact ⟨.classConflict (qualify scopes name),
                    by simp [validate_name, hb, h2, h3n, h4, h5, hfc]⟩
              | none =>
                have hok : validate_name false scopes st name = .ok (qualify scopes name) := by
                  simp [validate_name, hb, h2, h3n, h4, h5, hfc]
                constructor
                · intro ⟨e, he⟩
                  rw [hok] at he
                  exact Except.noConfusion he
                · intro hd
                  rcases hd with h | h | h | h | h | ⟨h, _⟩ | ⟨_, h⟩
                  · rw [hb] at h
                    exact Bool.noConfusion h
                  · exact absurd h h2
                  · exact absurd h h3
                  · exact absurd h h4
                  · exact absurd h h5
                  · exact Bool.noConfusion h
                  · exact absurd rfl h

/-- Counterexample to claim C7: inside a context that is neither top level
nor a class body (the scanner's innermost class scope is the anonymous
scope pushed for non-class expressions), registering the class `foo`
fails with `classes can only be defined at top-level or inside a class`,
although its name is non-empty, does not start with `::`, does not
qualify to `main` or `settings`, and collides with no defined type or
class. -/
theorem validate_name_fails_outside_class_context :
    validate_name true ["::", ""] ScannerState.empty "foo" = .error (.notTopLevel true) ∧
    "foo" ≠ "" ∧
    "::".toList.isPrefixOf "foo".toList = false ∧
    qualify ["::", ""] "foo" ≠ "main" ∧
    qualify ["::", ""] "foo" ≠ "settings" ∧
    ScannerState.empty.findDefinedType (qualify ["::", ""] "foo") = false ∧
    ScannerState.empty.findClass (qualify ["::", ""] "foo") = none := by
  refine ⟨rfl, by decide, by decide, by decide, by decide, rfl, rfl⟩

/-- Claim C7 (amended): registering a class or defined-type definition
fails exactly when the definition is not at top level or inside a class
body, the name is empty, the name begins with `::`, the fully-qualified
name is `main` or `settings`, or the fully-qualified name is already
registered as the other kind; otherwise validation succeeds and returns
the scope-qualified name (which the scanner then registers). -/
theorem validate_name_characterization :
    ∀ (isClass : Bool) (scopes : List String) (st : ScannerState) (name : String),
      ((∃ e, validate_name isClass scopes st name = .error e) ↔
        (canDefine scopes = false ∨ name = "" ∨ "::".toList.isPrefixOf name.toList = true ∨
         qualify scopes name = "main" ∨ qualify scopes name = "settings" ∨
         (isClass = true ∧ st.findDefinedType (qualify scopes name) = true) ∨
         (isClass = false ∧ st.findClass (qualify scopes name) ≠ none))) ∧
      (∀ q, validate_name isClass scopes st name = .ok q → q = qualify scopes name) ∧
      ((¬ (canDefine scopes = false ∨ name = "" ∨ "::".toList.isPrefixOf name.toList = true ∨
         qualify scopes name = "main" ∨ qualify scopes name = "settings" ∨
         (isClass = true ∧ st.findDefinedType (qualify scopes name) = true) ∨
         (isClass = false ∧ st.findClass (qualify scopes name) ≠ none))) →
        validate_name isClass scopes st name = .ok (qualify scopes name)) := by
  intro isClass scopes st name
  refine ⟨validate_name_error_iff isClass scopes st name,
    validate_name_ok_eq isClass scopes st name, ?_⟩
  intro hd
  cases hv : validate_name isClass scopes st name with
  | error e =>
    exact absurd ((validate_name_error_iff isClass scopes st name).mp ⟨e, hv⟩) hd
  | ok q =>
    have hq := validate_name_ok_eq isClass scopes st name q hv
    rw [← hq]

/-- Witness for the amended claim C7 at concrete inputs. -/
theorem validate_name_characterization_witness :
    (∃ e, validate_name true ["::"] ScannerState.empty "main" = .error e) ∧
    validate_name true ["::"] ScannerState.empty "apache" = .ok "apache" := by
  constructor
  · exact (validate_name_characterization true ["::"] ScannerState.empty "main").1.mpr
      (Or.inr (Or.inr (Or.inr (Or.inl (by decide)))))
  · have h := (validate_name_characterization true ["::"] ScannerState.empty "apache").2.2
    exact h (by decide)

/-- If some previously registered definition declares a parent different
from the new one, the parent-consistency loop raises an error. -/
theorem checkParents_error_of_mem (k p : String) :
    ∀ (defs : List ClassDefinition) (d : ClassDefinition) (x : String),
      d ∈ defs → d.parent = some x → p ≠ x →
      ∃ e, checkParents k p defs = .error e := by
  intro defs
  induction defs with
  | nil =>
    intro d x hmem
    exact absurd hmem (List.not_mem_nil d)
  | cons d0 rest ih =>
    intro d x hmem hx hpx
    simp only [checkParents]
    cases hp0 : d0.parent with
    | none =>
      rcases List.mem_cons.mp hmem with rfl | hmem2
      · rw [hp0] at hx
        exact Option.noConfusion hx
      · exact ih d x hmem2 hx hpx
    | some y =>
      dsimp only
      by_cases hpy : p = y
      · rw [if_pos hpy]
        rcases List.mem_cons.mp hmem with rfl | hmem2
        · rw [hp0] at hx
          injection hx with hyx
          exact absurd (hpy.trans hyx) hpx
        · exact ih d x hmem2 hx hpx
      · rw [if_neg hpy]
        exact ⟨_, rfl⟩

/-- If the parent-consistency loop succeeds, every previously declared
parent equals the new one. -/
theorem checkParents_ok_all (k p : String) :
    ∀ (defs : List ClassDefinition), checkParents k p defs = .ok () →
      ∀ d ∈ defs, ∀ x, d.parent = some x → x = p := by
  intro defs
  induction defs with
  | nil =>
    intro _ d hmem
    exact absurd hmem (List.not_mem_nil d)
  | cons d0 rest ih =>
    intro h d hmem x hx
    simp only [checkParents] at h
    cases hp0 : d0.parent with
    | none =>
      rw [hp0] at h
      rcases List.mem_cons.mp hmem with rfl | hmem2
      · rw [hp0] at hx
        exact Option.noConfusion hx
      · exact ih h d hmem2 x hx
    | some y =>
      rw [hp0] at h
      dsimp only at h
      by_cases hpy : p = y
      · rw [if_pos hpy] at h
        rcases List.mem_cons.mp hmem with rfl | hmem2
        · rw [hp0] at hx
          injection hx with hyx
          exact (hyx ▸ hpy).symm
        · exact ih h d hmem2 x hx
      · rw [if_neg hpy] at h
        exact Except.noConfusion h

/-- `find_class` on the registry after `define_class`. -/
theorem findClass_defineClass (st : ScannerState) (q : String)
    (defn : ClassDefinition) (name : String) :
    (st.defineClass q defn).findClass name =
      if name = q then some (st.classes q ++ [defn]) else st.findClass name := by
  simp only [ScannerState.defineClass, ScannerState.findClass]
  by_cases h : name = q
  · cases hcl : st.classes q <;> simp [h, hcl]
  · simp [h]

/-- A registered class has exactly its registry list as definitions. -/
theorem findClass_eq_some (st : ScannerState) (q : String)
    (defs : List ClassDefinition) (h : st.findClass q = some defs) :
    st.classes q = defs := by
  simp only [ScannerState.findClass] at h
  cases hcl : st.classes q with
  | nil =>
    rw [hcl] at h
    exact Option.noConfusion h
  | cons d rest =>
    rw [hcl] at h
    injection h

/-- An unregistered class has an empty registry list. -/
theorem findClass_eq_none (st : ScannerState) (q : String)
    (h : st.findClass q = none) : st.classes q = [] := by
  simp only [ScannerState.findClass] at h
  cases hcl : st.classes q with
  | nil => rfl
  | cons d rest =>
    rw [hcl] at h
    exact Option.noConfusion h

/-- Appending a definition whose parent agrees with every previously
declared parent of the class preserves the consistency invariant. -/
theorem parentsConsistent_defineClass (st : ScannerState) (q : String)
    (defn : ClassDefinition) (h : parentsConsistent st)
    (hnew : ∀ d ∈ st.classes q, ∀ x y, d.parent = some x → defn.parent = some y → x = y) :
    parentsConsistent (st.defineClass q defn) := by
  intro name defs hdefs d1 h1 d2 h2 x y hx hy
  rw [findClass_defineClass] at hdefs
  by_cases hnq : name = q
  · rw [if_pos hnq] at hdefs
    injection hdefs with hdefs
    subst hdefs
    have hOld : ∀ da ∈ st.classes q, ∀ db ∈ st.classes q,
        ∀ u v, da.parent = some u → db.parent = some v → u = v := by
      intro da hda db hdb u v hu hv
      have hne : st.findClass q = some (st.classes q) := by
        simp only [ScannerState.findClass]
        cases hcl : st.classes q with
        | nil =>
          rw [hcl] at hda
          exact absurd hda (List.not_mem_nil da)
        | cons d0 rest => rfl
      exact h q (st.classes q) hne da hda db hdb u v hu hv
    rcases List.mem_append.mp h1 with h1a | h1b
    · rcases List.mem_append.mp h2 with h2a | h2b
      · exact hOld d1 h1a d2 h2a x y hx hy
      · have hd2 : d2 = defn := by simpa using h2b
        rw [hd2] at hy
        exact hnew d1 h1a x y hx hy
    · have hd1 : d1 = defn := by simpa using h1b
      rw [hd1] at hx
      rcases List.mem_append.mp h2 with h2a | h2b
      · exact (hnew d2 h2a y x hy hx).symm
      · have hd2 : d2 = defn := by simpa using h2b
        rw [hd2] at hy
        rw [hx] at hy
        exact Option.some.inj hy
  · rw [if_neg hnq] at hdefs
    exact h name defs hdefs d1 h1 d2 h2 x y hx hy

/-- A successful class registration preserves the consistency
invariant. -/
theorem scanClassDef_ok_preserves (scopes : List String) (st : ScannerState)
    (expr : ClassExpr) (st2 : ScannerState)
    (hs : scanClassDef scopes st expr = .ok st2) (h : parentsConsistent st) :
    parentsConsistent st2 := by
  simp only [scanClassDef] at hs
  cases hv : validate_name true scopes st expr.name with
  | error e =>
    rw [hv] at hs
    exact Except.noConfusion hs
  | ok q =>
    rw [hv] at hs
    dsimp only at hs
    cases hp : expr.parent with
    | none =>
      rw [hp] at hs
      dsimp only at hs
      cases hvp : validate_parameters true expr.parameters with
      | error e =>
        rw [hvp] at hs
        exact Except.noConfusion hs
      | ok u =>
        cases u
        rw [hvp] at hs
        dsimp only at hs
        injection hs with hs
        subst hs
        apply parentsConsistent_defineClass st q _ h
        intro d hd a b ha hb
        exact Option.noConfusion hb
    | some parent =>
      rw [hp] at hs
      dsimp only at hs
      cases hfc : st.findClass q with
      | none =>
        rw [hfc] at hs
        dsimp only at hs
        cases hvp : validate_parameters true expr.parameters with
        | error e =>
          rw [hvp] at hs
          exact Except.noConfusion hs
        | ok u =>
          cases u
          rw [hvp] at hs
          dsimp only at hs
          injection hs with hs
          subst hs
          apply parentsConsistent_defineClass st q _ h
          intro d hd a b ha hb
          rw [findClass_eq_none st q hfc] at hd
          exact absurd hd (List.not_mem_nil d)
      | some defs =>
        rw [hfc] at hs
        dsimp only at hs
        cases hcp : checkParents q parent defs with
        | error e2 =>
          rw [hcp] at hs
          exact Except.noConfusion hs
        | ok u =>
          cases u
          rw [hcp] at hs
          dsimp only at hs
          cases hvp : validate_parameters true expr.parameters with
          | error e =>
            rw [hvp] at hs
            exact Except.noConfusion hs
          | ok u2 =>
            cases u2
            rw [hvp] at hs
            dsimp only at hs
            injection hs with hs
            subst hs
            apply parentsConsistent_defineClass st q _ h
            intro d hd a b ha hb
            have hb2 : some parent = some b := hb
            have hb3 := Option.some.inj hb2
            subst hb3
            rw [findClass_eq_some st q defs hfc] at hd
            exact checkParents_ok_all q parent defs hcp d hd a ha

/-- A successful defined-type registration leaves the class registry, and
hence the consistency invariant, untouched. -/
theorem scanTypeDef_ok_preserves (scopes : List String) (st : ScannerState)
    (name : String) (parameters : List Parameter) (st2 : ScannerState)
    (hs : scanTypeDef scopes st name parameters = .ok st2)
    (h : parentsConsistent st) : parentsConsistent st2 := by
  simp only [scanTypeDef] at hs
  cases hvp : validate_parameters false parameters with
  | error e =>
    rw [hvp] at hs
    exact Except.noConfusion hs
  | ok u =>
    cases u
    rw [hvp] at hs
    cases hv : validate_name false scopes st name with
    | error e =>
      rw [hv] at hs
      exact Except.noConfusion hs
    | ok q =>
      rw [hv] at hs
      injection hs with hs
      subst hs
      intro n defs hdefs
      exact h n defs hdefs

/-- Scanning a sequence of registration events preserves the consistency
invariant. -/
theorem scanEvents_ok_preserves :
    ∀ (events : List ScanEvent) (st st2 : ScannerState),
      scanEvents events st = .ok st2 → parentsConsistent st →
      parentsConsistent st2 := by
  intro events
  induction events with
  | nil =>
    intro st st2 hs h
    simp only [scanEvents] at hs
    injection hs with hs
    subst hs
    exact h
  | cons ev rest ih =>
    intro st st2 hs h
    simp only [scanEvents] at hs
    cases hse : scanEvent st ev with
    | error e =>
      rw [hse] at hs
      exact Except.noConfusion hs
    | ok st1 =>
      rw [hse] at hs
      refine ih st1 st2 hs ?_
      cases ev with
      | classDef scopes expr => exact scanClassDef_ok_preserves scopes st expr st1 hse h
      | typeDef scopes name parameters =>
        exact scanTypeDef_ok_preserves scopes st name parameters st1 hse h

/-- The empty catalog satisfies the consistency invariant. -/
theorem parentsConsistent_empty : parentsConsistent ScannerState.empty := by
  intro name defs hdefs
  simp only [ScannerState.findClass, ScannerState.empty] at hdefs
  exact Option.noConfusion hdefs

/-- Claim C3: if the scanner has already registered a definition of a
class with a recorded `inherits` parent, registering another definition
of the same class with a different parent raises an error; and for any
sequence of registrations the scanner accepts (starting from the empty
catalog), every class's declared parents are identical across all of its
definitions. -/
theorem class_parent_consistency :
    (∀ (scopes : List String) (st : ScannerState) (expr : ClassExpr)
        (defs : List ClassDefinition) (d : ClassDefinition) (x p : String),
      st.findClass (qualify scopes expr.name) = some defs → d ∈ defs →
      d.parent = some x → expr.parent = some p → p ≠ x →
      ∃ e, scanClassDef scopes st expr = .error e) ∧
    (∀ (events : List ScanEvent) (st : ScannerState),
      scanEvents events ScannerState.empty = .ok st → parentsConsistent st) := by
  constructor
  · intro scopes st expr defs d x p hfc hmem hx hp hpx
    simp only [scanClassDef]
    cases hv : validate_name true scopes st expr.name with
    | error e => exact ⟨e, rfl⟩
    | ok q =>
      have hq := validate_name_ok_eq true scopes st expr.name q hv
      subst hq
      rw [hp]
      dsimp only
      rw [hfc]
      dsimp only
      obtain ⟨e2, he2⟩ := checkParents_error_of_mem (qualify scopes expr.name) p defs d x hmem hx hpx
      rw [he2]
      exact ⟨e2, rfl⟩
  · intro events st hs
    exact scanEvents_ok_preserves events ScannerState.empty st hs parentsConsistent_empty

/-- Witness for claim C3 at concrete inputs: after registering
`class a inherits b`, registering `class a inherits c` errors, and the
catalog after the first registration satisfies the invariant. -/
theorem class_parent_consistency_witness :
    (∃ e, scanClassDef ["::"] (ScannerState.empty.defineClass "a" ⟨some "b"⟩)
        ⟨"a", [], some "c"⟩ = .error e) ∧
    parentsConsistent (ScannerState.empty.defineClass "a" ⟨some "b"⟩) := by
  constructor
  · exact class_parent_consistency.1 ["::"] _ ⟨"a", [], some "c"⟩
      [⟨some "b"⟩] ⟨some "b"⟩ "b" "c" rfl (by simp) rfl rfl (by decide)
  · exact class_parent_consistency.2 [.classDef ["::"] ⟨"a", [], some "b"⟩] _ rfl

/-- Counterexample to claim C8: when the settings parse succeeds with a
log level above `error` (here `alert`) and the manifest list is empty,
`main` throws a `settings_exception` after configuring the logger; the
handler's `LOG(error, ...)` is filtered out by `would_log`, so the logger
counts zero errors, yet `main` returns `EXIT_FAILURE` directly from the
handler: exit status 1 with zero counted errors. -/
theorem exit_failure_with_zero_counted_errors :
    (runMain ⟨false, false, false, .alert, true, none⟩).1 = 1 ∧
    (runMain ⟨false, false, false, .alert, true, none⟩).2.errors = 0 := by
  constructor <;> rfl

/-- Claim C8 (amended): the exit status is 0 iff the logger counted zero
errors AND the run did not take a `settings_exception` path (which
returns `EXIT_FAILURE` directly); the logger increments its error count
exactly when a record at level `error` or above passes the level filter,
and its warning count exactly when a record at level `warning` passes the
filter. -/
theorem exit_status_and_logger_counters :
    (∀ cfg : MainConfig,
      ((runMain cfg).1 = 0 ↔
        ((runMain cfg).2.errors = 0 ∧ settingsFailure cfg = false))) ∧
    (∀ (lg : Logger) (lvl : Level),
      ((lg.log lvl).errors = lg.errors + 1 ↔
        (lg.would_log lvl = true ∧ Level.error.toNat ≤ lvl.toNat)) ∧
      ((lg.log lvl).errors = lg.errors ∨ (lg.log lvl).errors = lg.errors + 1) ∧
      ((lg.log lvl).warnings = lg.warnings + 1 ↔
        (lg.would_log lvl = true ∧ lvl = .warning)) ∧
      ((lg.log lvl).warnings = lg.warnings ∨
        (lg.log lvl).warnings = lg.warnings + 1)) := by
  constructor
  · intro cfg
    obtain ⟨sf, sv, sh, ll, me, co⟩ := cfg
    rcases co with _ | clvl
    · cases sf <;> cases sv <;> cases sh <;> cases me <;> cases ll <;> decide
    · cases sf <;> cases sv <;> cases sh <;> cases me <;> cases ll <;> cases clvl <;> decide
  · intro lg lvl
    obtain ⟨w, e, slvl⟩ := lg
    refine ⟨?_, ?_, ?_, ?_⟩ <;>
      (cases slvl <;> cases lvl <;>
        simp [Logger.log, Logger.would_log, Level.toNat])

/-- Along any path that stays within the expression grammar (no crossing
of braced statement blocks), no statement-only catalog expression can
occur: the expression grammar's catalog rule produces only collection
expressions, and every recursive position of the expression rules is
again an expression rule. -/
theorem directBad_not_produced :
    ∀ nd : Node, DirectBad nd → Produces (nodeRule nd) → False := by
  intro nd hbad
  induction hbad
  case found c h =>
    intro hp
    simp only [nodeRule] at hp
    cases hp
    simp [GCatalog.isStatementOnly] at h
  all_goals
    intro hp
    simp only [nodeRule] at *
    cases hp <;> solve_by_elim

/-- Counterexample to claim C9: the accepted syntax tree
`[ if true { file { '/tmp/x': } } ]` (a single statement whose expression
is an array literal) contains a resource declaration — a statement-only
catalog expression — nested inside a sub-expression: the array element is
an if expression whose statement body declares the resource.  The tree is
produced by the `statements` rule, the array literal by the `expression`
rule, and the resource declaration occurs within it. -/
theorem statement_only_catalog_inside_subexpression :
    Produces (.statements (.cons exampleBadExpr .nil)) ∧
    Produces (.expressionR exampleBadExpr) ∧
    ContainsBad (.expr exampleBadExpr) := by
  have hres : Produces (.statementR exampleResourceStmt) :=
    .statementMk
      (.statementExprCatalog
        (.catalogResource (.primaryBasic .basicName)
          (.resourceBodiesCons (.expressionMk (.primaryBasic .basicStr) .expressionBinopsNil)
            .attributesNil .resourceBodiesNil)))
      .statementBinopsNil
  have hifc : Produces (.controlR exampleIfWithResource) :=
    .controlIf (.expressionMk (.primaryBasic .basicBoolean) .expressionBinopsNil)
      (.statementsCons hres .statementsNil) .elsifClausesNil .statementsNil
  have hprim : Produces (.primaryR
      (.basic (.arrayLit (.cons (.mk (.control exampleIfWithResource) .nil) .nil)))) :=
    .primaryBasic (.basicArray (.expressionsCons
      (.expressionMk (.primaryControl hifc) .expressionBinopsNil) .expressionsNil))
  have hexpr : Produces (.expressionR exampleBadExpr) :=
    .expressionMk hprim .expressionBinopsNil
  refine ⟨?_, hexpr, ?_⟩
  · exact .statementsCons (.statementMk (.statementExprPrimary hprim) .statementBinopsNil)
      .statementsNil
  · exact .exprPrimary (.primBasic (.basicArray (.exprListHead (.exprPrimary (.primControl
      (.ifBody (.exprListHead (.exprPrimary (.primCatalog (.found rfl))))))))))

/-- Claim C9 (amended): resource declarations, resource defaults,
resource overrides, and class/defined-type/node definitions are produced
only by the statement grammar: a tree produced by the `expression` rule
never contains such a node outside a braced statement block (`DirectBad`
paths), and the expression grammar admits only collection expressions
among catalog expressions. -/
theorem expression_grammar_admits_only_collections :
    (∀ e : GExpr, Produces (.expressionR e) → ¬ DirectBad (.expr e)) ∧
    (∀ c : GCatalog, Produces (.primaryR (.catalog c)) → c.isStatementOnly = false) := by
  constructor
  · intro e hp hbad
    exact directBad_not_produced (.expr e) hbad hp
  · intro c hp
    cases hp
    rfl

/-- Witness for the amended claim C9 at concrete inputs. -/
theorem expression_grammar_admits_only_collections_witness :
    ¬ DirectBad (.expr (.mk (.basic .undef) .nil)) ∧
    (GCatalog.collection false "User").isStatementOnly = false := by
  constructor
  · exact expression_grammar_admits_only_collections.1 _
      (.expressionMk (.primaryBasic .basicUndef) .expressionBinopsNil)
  · exact expression_grammar_admits_only_collections.2 _ .primaryCollection

end Puppet
